import Mathlib

/-!
Verification of the registry/dispatch core of the Portals MCP server
(`src/manager.ts`, class `PortalsManager`).

The TypeScript source is embedded shallowly:
* JavaScript strings are Lean `String`s; the handful of string operations the
  code uses (`split(',')`, `toLowerCase`, regex slugging, `slice(0,4)`,
  `includes`, `endsWith('/')`) are re-implemented on `String.data` with
  JavaScript semantics.
* The external collaborators (`PortalsClient.getAPI`, the axios schema fetch,
  `PortalsClient.callAPI`, the compiled Ajv validator) are parameters of the
  embedded operations: a run of `refreshPortals` is determined by the
  environment value and the two fetch functions, a run of `callTool` by the
  snapshot, the validator and the payment-client call.
* Thrown exceptions become `Except.error` carrying the message string.
* The `portals` JS `Map` becomes an insertion-ordered association list, with
  `mapSet` reproducing `Map.set` (overwrite in place, append when fresh).
-/

namespace Portals

/-! ## JavaScript-flavoured string primitives -/

/-- Characters kept by the slug regex `[^a-z0-9]+` after lowercasing:
lowercase ASCII letters and digits. -/
def isSlugChar (c : Char) : Bool :=
  ('a' ≤ c && c ≤ 'z') || ('0' ≤ c && c ≤ '9')

/-- `replace(/[^a-z0-9]+/g, '_')`: every maximal run of non-slug characters
becomes a single underscore.  The flag records whether we are currently inside
such a run (so further run characters are dropped). -/
def collapseAux : List Char → Bool → List Char
  | [], _ => []
  | c :: cs, inRun =>
    if isSlugChar c then c :: collapseAux cs false
    else if inRun then collapseAux cs true
    else '_' :: collapseAux cs true

/-- Remove one leading underscore, as the `^_` alternative of
`replace(/^_|_$/g, '')` does. -/
def dropLeadUnderscore : List Char → List Char
  | '_' :: rest => rest
  | l => l

/-- Remove one trailing underscore, as the `_$` alternative of
`replace(/^_|_$/g, '')` does (on the string left by the leading removal). -/
def dropTrailUnderscore (l : List Char) : List Char :=
  (dropLeadUnderscore l.reverse).reverse

/-- JavaScript `Char`-level `toLowerCase` (ASCII; non-ASCII letters are not in
`[a-z0-9]` either before or after lowercasing, so they slug to `_` both in the
source and here). -/
def lowerChars (s : String) : List Char :=
  s.data.map Char.toLower

/-- `title.toLowerCase().replace(/[^a-z0-9]+/g, '_').replace(/^_|_$/g, '')`
from `generateToolName` (manager.ts line 216). -/
def slugify (title : String) : List Char :=
  dropTrailUnderscore (dropLeadUnderscore (collapseAux (lowerChars title) false))

/-- JavaScript `s.split(',')` on the character list: always at least one
segment, empty segments kept. -/
def splitCommaAux : List Char → List (List Char)
  | [] => [[]]
  | c :: cs =>
    if c = ',' then [] :: splitCommaAux cs
    else
      match splitCommaAux cs with
      | [] => [[c]]
      | h :: t => (c :: h) :: t

/-- `process.env.PORTALS_WHITELIST?.split(',').filter(Boolean) || []`
(manager.ts line 83): `none` models an unset variable; `filter(Boolean)`
drops empty segments. -/
def parseWhitelist (env : Option String) : List String :=
  match env with
  | none => []
  | some s => ((splitCommaAux s.data).map String.mk).filter (fun seg => seg ≠ "")

/-- JavaScript `s.includes(pat)`. -/
def strContainsB (s pat : String) : Bool :=
  decide (pat.data <:+: s.data)

/-- JavaScript `a || b` on an optionally-present string field: an absent or
empty string is falsy. -/
def jsOrS : Option String → String → String
  | none, d => d
  | some s, d => if s = "" then d else s

/-- JavaScript `id.slice(0, 4)` (manager.ts line 217). -/
def take4 (id : String) : String :=
  String.mk (id.data.take 4)

/-! ## Data model -/

/-- A JSON-Schema document as the manager handles it: it is never inspected,
only constructed (`{ type: 'object', properties: {} }`) or passed through from
the provider, so an opaque carrier with the distinguished empty-object literal
is a faithful embedding. -/
inductive Schema where
  | emptyObject : Schema
  | raw : String → Schema
deriving DecidableEq

/-- One entry of `PortalMetadata.tools` (manager.ts lines 20–24). -/
structure Tool where
  name : String
  description : String
  /-- The `parameters: any` field; `none` models an absent/falsy value as
  tested by `tool?.parameters` in `callTool`. -/
  parameters : Option Schema
deriving DecidableEq

/-- `PortalMetadata` (manager.ts lines 14–25).  `tools` is optional and, as in
the interface, distinct from an empty list. -/
structure PortalMetadata where
  id : String
  title : String
  description : String
  url : String
  paymentVault : String
  tools : Option (List Tool)
deriving DecidableEq

/-- The result of `client.getAPI(id)` as consumed by `refreshPortals`
(manager.ts lines 97–105); `publicKey.toString()` and
`paymentVault.toString()` are taken as the strings they produce. -/
structure PortalAPI where
  publicKey : String
  title : String
  description : String
  url : String
  paymentVault : String
deriving DecidableEq

/-- One operation object of an OpenAPI document, restricted to the fields the
manager reads (manager.ts lines 118–126).  `requestBodySchema` stands for
`op.requestBody?.content?.['application/json']?.schema`, with `none` for any
absent link of that optional chain. -/
structure Operation where
  operationId : Option String
  summary : Option String
  description : Option String
  requestBodySchema : Option Schema
deriving DecidableEq

/-- A fetched `openapi.json` document: `openapi.paths || {}` as an
insertion-ordered map path → (map method → operation). -/
structure OpenAPIDoc where
  paths : List (String × List (String × Operation))
deriving DecidableEq

/-- One element of the list returned by `getTools` (manager.ts lines
152–164). -/
structure ToolEntry where
  name : String
  description : String
  inputSchema : Option Schema
deriving DecidableEq

/-- The mutable state of `PortalsManager` relevant to the registry: the
`portals` map, as an insertion-ordered association list. -/
structure ManagerState where
  portals : List (String × PortalMetadata)
deriving DecidableEq

/-- Opaque caller-supplied argument object. -/
abbrev Args := String

/-! ## Manager operations -/

/-- `generateToolName` (manager.ts lines 215–219). -/
def generateToolName (title id : String) : String :=
  "portal_" ++ String.mk (slugify title) ++ "_" ++ take4 id

/-- The schema URL built in `refreshPortals` (manager.ts lines 108–110):
`<url>openapi.json` when the url ends with a slash, `<url>/openapi.json`
otherwise. -/
def schemaUrl (url : String) : String :=
  if url.data.getLast? = some '/' then url ++ "openapi.json"
  else url ++ "/openapi.json"

/-- The normalization loop over `Object.entries(paths)` (manager.ts lines
117–128): skip the `parameters` metadata key and operations without a truthy
`operationId`; otherwise emit one tool with the operation id as name, the
`summary || description || metadata.description` chain as description, and
the JSON request-body schema (or the empty-object literal) as parameters. -/
def normalizeTools (defaultDescr : String)
    (paths : List (String × List (String × Operation))) : List Tool :=
  paths.flatMap (fun pathEntry =>
    pathEntry.2.filterMap (fun methodEntry =>
      if methodEntry.1 = "parameters" then none
      else
        match methodEntry.2.operationId with
        | none => none
        | some opId =>
          if opId = "" then none
          else
            some
              { name := opId
                description :=
                  jsOrS methodEntry.2.summary
                    (jsOrS methodEntry.2.description defaultDescr)
                parameters :=
                  some (methodEntry.2.requestBodySchema.getD Schema.emptyObject) }))

/-- The metadata record built from a `getAPI` result (manager.ts lines
99–105). -/
def PortalAPI.toMetadata (api : PortalAPI) : PortalMetadata :=
  { id := api.publicKey
    title := api.title
    description := api.description
    url := api.url
    paymentVault := api.paymentVault
    tools := none }

/-- The per-provider body of the refresh loop after a successful `getAPI`
(manager.ts lines 99–137): build the metadata record, attempt the schema
fetch (`fetchSchema` returns `none` on any axios/parse failure, which the
`catch` logs and swallows), and attach `tools` only when normalization
produced a non-empty list. -/
def processPortal (fetchSchema : String → Option OpenAPIDoc)
    (api : PortalAPI) : PortalMetadata :=
  let metadata : PortalMetadata := api.toMetadata
  match fetchSchema (schemaUrl metadata.url) with
  | none => metadata
  | some openapi =>
    let tools := normalizeTools metadata.description openapi.paths
    if tools.length > 0 then { metadata with tools := some tools } else metadata

/-- JavaScript `Map.set`: overwrite in place when the key exists, append
otherwise. -/
def mapSet (m : List (String × PortalMetadata)) (k : String)
    (v : PortalMetadata) : List (String × PortalMetadata) :=
  if m.any (fun e => e.1 == k) then
    m.map (fun e => if e.1 == k then (k, v) else e)
  else m ++ [(k, v)]

/-- One iteration of the whitelist loop (manager.ts lines 95–141): a failed
`getAPI` (`none`) is caught, logged and skipped; a successful one stores the
processed metadata under the whitelist id. -/
def buildStep (getAPI : String → Option PortalAPI)
    (fetchSchema : String → Option OpenAPIDoc)
    (m : List (String × PortalMetadata)) (id : String) :
    List (String × PortalMetadata) :=
  match getAPI id with
  | none => m
  | some api => mapSet m id (processPortal fetchSchema api)

/-- The `newPortals` map accumulated by the whole whitelist loop. -/
def buildPortals (getAPI : String → Option PortalAPI)
    (fetchSchema : String → Option OpenAPIDoc) (whitelist : List String) :
    List (String × PortalMetadata) :=
  whitelist.foldl (buildStep getAPI fetchSchema) []

/-- The message thrown on an empty whitelist (manager.ts lines 86–90). -/
def whitelistErrorMessage : String :=
  "PORTALS_WHITELIST required in MCP config.\n" ++
  "Browse available Portals: https://portalsprotocol.com/browse\n" ++
  "Add Portal IDs to your config env.PORTALS_WHITELIST"

/-- `refreshPortals` (manager.ts lines 82–144) as a state transformer: parse
the whitelist, throw the configuration error when it is empty (leaving
`this.portals` untouched, since the assignment on line 143 is only reached at
the end), otherwise assign the fully built `newPortals` map in one step. -/
def refreshPortals (env : Option String)
    (getAPI : String → Option PortalAPI)
    (fetchSchema : String → Option OpenAPIDoc) (st : ManagerState) :
    ManagerState × Except String Unit :=
  let whitelist := parseWhitelist env
  if whitelist.length = 0 then (st, Except.error whitelistErrorMessage)
  else ({ portals := buildPortals getAPI fetchSchema whitelist }, Except.ok ())

/-- The `portal.tools && portal.tools.length > 0` test used by both `getTools`
and `findPortalAndToolByName`. -/
def portalHasTools (portal : PortalMetadata) : Bool :=
  decide (0 < (portal.tools.getD []).length)

/-- The entry `getTools` pushes for one explicit tool (manager.ts lines
152–156). -/
def explicitEntry (t : Tool) : ToolEntry :=
  { name := t.name, description := t.description, inputSchema := t.parameters }

/-- The synthesized fallback entry for a tool-less portal (manager.ts lines
159–164): generated name, portal description, empty-object schema. -/
def fallbackEntry (id : String) (portal : PortalMetadata) : ToolEntry :=
  { name := generateToolName portal.title id
    description := portal.description
    inputSchema := some Schema.emptyObject }

/-- The entries one portal contributes to `getTools`. -/
def portalToolEntries (id : String) (portal : PortalMetadata) : List ToolEntry :=
  if portalHasTools portal then (portal.tools.getD []).map explicitEntry
  else [fallbackEntry id portal]

/-- `getTools` (manager.ts lines 146–169): iterate the snapshot in map order,
pushing each portal's entries. -/
def getTools (portals : List (String × PortalMetadata)) : List ToolEntry :=
  portals.flatMap (fun e => portalToolEntries e.1 e.2)

/-- `findPortalAndToolByName` (manager.ts lines 221–236): scan the snapshot in
map order; portals with explicit tools match by exact tool name, tool-less
portals by recomputing the generated name; the first match wins and a
tool-less match carries no tool. -/
def findPortalAndToolByName (portals : List (String × PortalMetadata))
    (name : String) : Option (PortalMetadata × Option Tool) :=
  match portals with
  | [] => none
  | entry :: rest =>
    if portalHasTools entry.2 then
      match (entry.2.tools.getD []).find? (fun t => t.name == name) with
      | some t => some (entry.2, some t)
      | none => findPortalAndToolByName rest name
    else
      if generateToolName entry.2.title entry.1 == name then some (entry.2, none)
      else findPortalAndToolByName rest name

/-- `JSON.stringify(validate.errors)` on the Ajv error array, abstracted to a
serialization that lists every violation message in order. -/
def serializeViolations : List String → String
  | [] => ""
  | [e] => e
  | e :: es => e ++ ", " ++ serializeViolations es

/-- The templated message for an `Insufficient SOL` payment failure
(manager.ts lines 195–199). -/
def solFundingMessage (walletAddress : String) : String :=
  "❌ Insufficient SOL for gas fees\n\n" ++
  "Send SOL to: " ++ walletAddress ++ "\n" ++
  "After funding, retry this request."

/-- The templated message for an insufficient-USDC payment failure
(manager.ts lines 204–208). -/
def usdcFundingMessage (walletAddress : String) : String :=
  "❌ Insufficient USDC balance\n\n" ++
  "Send USDC to: " ++ walletAddress ++ "\n" ++
  "After funding, retry this request."

/-- The `catch` classification of `callTool` (manager.ts lines 190–212):
rewrite insufficient-SOL and insufficient-USDC collaborator errors into the
funding templates, wrap everything else in `Portal call failed`. -/
def rewriteDispatchError (walletAddress errorMsg : String) : String :=
  if strContainsB errorMsg "Insufficient SOL" then solFundingMessage walletAddress
  else if strContainsB errorMsg "Insufficient USDC" ||
      strContainsB errorMsg "InsufficientUsdcBalance" then
    usdcFundingMessage walletAddress
  else "Portal call failed: " ++ errorMsg

/-- The dispatch step of `callTool` (manager.ts lines 188–212):
`client.callAPI(portal.id, args, tool?.name)` with its error classification.
The collaborator is a parameter returning either a result payload or an error
message. -/
def dispatchCall (callAPI : String → Args → Option String → Except String String)
    (walletAddress : String) (portal : PortalMetadata) (opName : Option String)
    (args : Args) : Except String String :=
  match callAPI portal.id args opName with
  | Except.ok r => Except.ok r
  | Except.error e => Except.error (rewriteDispatchError walletAddress e)

/-- `callTool` (manager.ts lines 171–213) after the initial refresh, acting on
the refreshed snapshot: resolve the name, validate against `tool?.parameters`
when present (the validator parameter stands for the Ajv instance constructed
with `allErrors: true` on line 30, so it returns the full list of violation
messages), then dispatch. -/
def callToolModel (validate : Schema → Args → List String)
    (callAPI : String → Args → Option String → Except String String)
    (walletAddress : String) (portals : List (String × PortalMetadata))
    (name : String) (args : Args) : Except String String :=
  match findPortalAndToolByName portals name with
  | none => Except.error ("Portal not found for tool: " ++ name)
  | some r =>
    match r.2 with
    | some t =>
      match t.parameters with
      | some sch =>
        let errs := validate sch args
        if errs.isEmpty then dispatchCall callAPI walletAddress r.1 (some t.name) args
        else Except.error ("Invalid parameters: " ++ serializeViolations errs)
      | none => dispatchCall callAPI walletAddress r.1 (some t.name) args
    | none => dispatchCall callAPI walletAddress r.1 none args

/-! ## Concrete fixtures used by witnesses and counterexamples -/

/-- A provider metadata fetch result used by several concrete scenarios. -/
def egAPI : PortalAPI :=
  { publicKey := "PK1", title := "Alpha One", description := "descA", url := "u",
    paymentVault := "v" }

/-- A schema fetcher that always fails (timeout / network error). -/
def egFetchFail : String → Option OpenAPIDoc := fun _ => none

/-- A schema fetcher that always returns a document with an empty paths map. -/
def egFetchEmpty : String → Option OpenAPIDoc := fun _ => some { paths := [] }

/-- A metadata fetcher knowing only the whitelist id `p1`. -/
def egGetAPI : String → Option PortalAPI := fun id => if id = "p1" then some egAPI else none

/-- An operation whose `operationId` is `x`, reused under two paths to build a
document with a duplicated operation id. -/
def dupOp : Operation :=
  { operationId := some "x", summary := none, description := none,
    requestBodySchema := none }

/-- An OpenAPI document declaring the same `operationId` under two paths. -/
def dupDoc : OpenAPIDoc :=
  { paths := [("/a", [("post", dupOp)]), ("/b", [("post", dupOp)])] }

/-- A schema fetcher serving the duplicated-id document. -/
def dupFetch : String → Option OpenAPIDoc := fun _ => some dupDoc

/-- A second provider metadata fetch result, with a distinct id and title. -/
def egAPI2 : PortalAPI :=
  { publicKey := "PK2", title := "Beta", description := "descB", url := "u2",
    paymentVault := "v2" }

/-- A metadata fetcher knowing the whitelist ids `p1` and `p2`. -/
def cexGetAPI : String → Option PortalAPI := fun id =>
  if id = "p1" then some egAPI else if id = "p2" then some egAPI2 else none

/-- A document declaring the single operation id `x`. -/
def xDoc : OpenAPIDoc := { paths := [("/a", [("post", dupOp)])] }

/-- A schema fetcher making every provider declare the operation id `x`. -/
def xFetch : String → Option OpenAPIDoc := fun _ => some xDoc

/-- The snapshot refreshed from two providers that both expose the explicit
tool name `x`. -/
def cexPortals : List (String × PortalMetadata) :=
  (refreshPortals (some "p1,p2") cexGetAPI xFetch ⟨[]⟩).1.portals

/-- The tool the first provider exposes in `cexPortals`. -/
def cexTool1 : Tool :=
  { name := "x", description := "descA", parameters := some Schema.emptyObject }

/-- The tool the second provider exposes in `cexPortals`. -/
def cexTool2 : Tool :=
  { name := "x", description := "descB", parameters := some Schema.emptyObject }

/-- The first provider's snapshot entry in `cexPortals`. -/
def cexMeta1 : PortalMetadata :=
  { id := "PK1", title := "Alpha One", description := "descA", url := "u",
    paymentVault := "v", tools := some [cexTool1] }

/-- The second provider's snapshot entry in `cexPortals`. -/
def cexMeta2 : PortalMetadata :=
  { id := "PK2", title := "Beta", description := "descB", url := "u2",
    paymentVault := "v2", tools := some [cexTool2] }

/-- An explicit tool as normalization produces it. -/
def egTool : Tool :=
  { name := "opx", description := "descA", parameters := some Schema.emptyObject }

/-- Snapshot metadata for a provider exposing the explicit tool `opx`. -/
def egMetaTools : PortalMetadata :=
  { id := "PK1", title := "Alpha One", description := "descA", url := "u",
    paymentVault := "v", tools := some [egTool] }

/-- Snapshot metadata for a tool-less provider. -/
def egMetaNoTools : PortalMetadata :=
  { id := "PK1", title := "Alpha One", description := "descA", url := "u",
    paymentVault := "v", tools := none }

/-- A one-provider snapshot with an explicit tool. -/
def egSnapshotTools : List (String × PortalMetadata) := [("p1", egMetaTools)]

/-- A one-provider snapshot with a tool-less provider. -/
def egSnapshotNoTools : List (String × PortalMetadata) := [("p1", egMetaNoTools)]

/-- A payment client that always succeeds. -/
def egCallAPI : String → Args → Option String → Except String String :=
  fun _ _ _ => Except.ok "payload"

/-- A compiled validator that rejects every argument object. -/
def egRejectAll : Schema → Args → List String := fun _ _ => ["must be an object"]

/-- A compiled validator that accepts every argument object. -/
def egAcceptAll : Schema → Args → List String := fun _ _ => []

/-! ## Spec-side definitions

The specification describes `generateToolName` in its own words: lower-case
the title, replace each run of non-alphanumeric characters with one
underscore, strip a leading and trailing underscore, prefix with `portal_`,
suffix with the first 4 characters of the id.  An equivalent reading of the
replace-and-strip steps: keep the maximal runs of alphanumeric characters and
join them with single underscores.  The definitions below follow that
reading, to be compared with the source-derived `generateToolName`. -/

/-- The maximal runs of alphanumeric characters of a string: split at every
non-alphanumeric character and keep the non-empty pieces. -/
def slugGroups (l : List Char) : List (List Char) :=
  (l.splitOnP (fun c => !isSlugChar c)).filter (fun g => !g.isEmpty)

/-- Join character runs with a single underscore between consecutive runs. -/
def joinUnderscore : List (List Char) → List Char
  | [] => []
  | [g] => g
  | g :: gs => g ++ '_' :: joinUnderscore gs

/-- `generateToolName` as the specification words it. -/
def specGenerateToolName (title id : String) : String :=
  "portal_" ++ String.mk (joinUnderscore (slugGroups (lowerChars title))) ++
    "_" ++ take4 id

/-- The single leading underscore `collapseAux` leaves when the input starts
with a non-alphanumeric run. -/
def leadUS : List Char → List Char
  | [] => []
  | c :: _ => if isSlugChar c then [] else ['_']

/-- The single trailing underscore `collapseAux` leaves when the input ends
with a non-alphanumeric run. -/
def trailUS : List Char → List Char
  | [] => []
  | [c] => if isSlugChar c then [] else ['_']
  | _ :: c :: cs => trailUS (c :: cs)

/-- The names one snapshot entry exposes through `getTools`. -/
def portalNames (p : String × PortalMetadata) : List String :=
  (portalToolEntries p.1 p.2).map ToolEntry.name

/-- All names a snapshot exposes through `getTools`, in order. -/
def snapshotNames (portals : List (String × PortalMetadata)) : List String :=
  (getTools portals).map ToolEntry.name

/-! ## Helper lemmas -/

set_option maxRecDepth 40000

theorem mk_eq_mk_iff {l l' : List Char} : String.mk l = String.mk l' ↔ l = l' :=
  ⟨fun h => congrArg String.data h, fun h => congrArg String.mk h⟩

/-- `parseWhitelist` is empty exactly when the variable is unset or every
comma-separated segment is empty. -/
theorem parseWhitelist_eq_nil_iff (env : Option String) :
    parseWhitelist env = [] ↔
      (env = none ∨ ∃ s, env = some s ∧ ∀ seg ∈ splitCommaAux s.data, seg = []) := by
  cases env with
  | none => simp [parseWhitelist]
  | some s =>
    simp only [parseWhitelist, List.filter_eq_nil_iff, List.mem_map, Option.some.injEq,
      reduceCtorEq, false_or]
    constructor
    · intro h
      refine ⟨s, rfl, fun seg hseg => ?_⟩
      have := h (String.mk seg) ⟨seg, hseg, rfl⟩
      have h2 : String.mk seg = String.mk [] := by
        simpa using this
      exact mk_eq_mk_iff.mp h2
    · rintro ⟨s', hs', h⟩ x ⟨seg, hseg, rfl⟩
      subst hs'
      simp [h seg hseg]

/-- Claim C6: the configuration error fires exactly for an absent, empty, or
commas-only whitelist variable; the error carries the setup instructions and
leaves the published snapshot untouched; a non-empty whitelist never raises,
whatever the per-provider fetch outcomes are. -/
theorem refresh_config_error_characterization (env : Option String)
    (g : String → Option PortalAPI) (f : String → Option OpenAPIDoc)
    (st : ManagerState) :
    ((∃ e, (refreshPortals env g f st).2 = Except.error e) ↔
      (env = none ∨ ∃ s, env = some s ∧ ∀ seg ∈ splitCommaAux s.data, seg = []))
    ∧ (∀ e, (refreshPortals env g f st).2 = Except.error e →
        (refreshPortals env g f st).1 = st ∧ e = whitelistErrorMessage)
    ∧ (parseWhitelist env ≠ [] → (refreshPortals env g f st).2 = Except.ok ()) := by
  unfold refreshPortals
  by_cases h : parseWhitelist env = []
  · rw [← parseWhitelist_eq_nil_iff]
    simp [h]
  · have hlen : (parseWhitelist env).length ≠ 0 := by
      simpa [List.length_eq_zero] using h
    rw [← parseWhitelist_eq_nil_iff]
    simp [hlen, h]

/-- Witness for C6 at the concrete commas-only whitelist `",,"`. -/
theorem refresh_config_error_witness :
    ((∃ e, (refreshPortals (some ",,") egGetAPI egFetchFail ⟨[]⟩).2 = Except.error e) ↔
      ((some ",," : Option String) = none ∨
        ∃ s, (some ",," : Option String) = some s ∧
          ∀ seg ∈ splitCommaAux s.data, seg = []))
    ∧ (∀ e, (refreshPortals (some ",,") egGetAPI egFetchFail ⟨[]⟩).2 = Except.error e →
        (refreshPortals (some ",,") egGetAPI egFetchFail ⟨[]⟩).1 = ⟨[]⟩ ∧
          e = whitelistErrorMessage) :=
  ⟨(refresh_config_error_characterization (some ",,") egGetAPI egFetchFail ⟨[]⟩).1,
   (refresh_config_error_characterization (some ",,") egGetAPI egFetchFail ⟨[]⟩).2.1⟩

/-- Claim C10: a raising refresh (the configuration error) leaves the
previously published snapshot completely unchanged, and a successful refresh
assigns the fully built map in a single step after the whole whitelist loop. -/
theorem refresh_atomic_snapshot (env : Option String)
    (g : String → Option PortalAPI) (f : String → Option OpenAPIDoc)
    (st : ManagerState) :
    (∀ e, (refreshPortals env g f st).2 = Except.error e →
      (refreshPortals env g f st).1 = st)
    ∧ ((refreshPortals env g f st).2 = Except.ok () →
      (refreshPortals env g f st).1.portals = buildPortals g f (parseWhitelist env)) := by
  unfold refreshPortals
  by_cases h : (parseWhitelist env).length = 0 <;> simp [h]

/-- Witness for C10: an unset whitelist variable leaves a one-entry registry
as it was. -/
theorem refresh_atomic_snapshot_witness :
    (∀ e, (refreshPortals none egGetAPI egFetchFail ⟨[("p1", egAPI.toMetadata)]⟩).2
        = Except.error e →
      (refreshPortals none egGetAPI egFetchFail ⟨[("p1", egAPI.toMetadata)]⟩).1
        = ⟨[("p1", egAPI.toMetadata)]⟩)
    ∧ ((refreshPortals none egGetAPI egFetchFail ⟨[("p1", egAPI.toMetadata)]⟩).2
        = Except.ok () →
      (refreshPortals none egGetAPI egFetchFail ⟨[("p1", egAPI.toMetadata)]⟩).1.portals
        = buildPortals egGetAPI egFetchFail (parseWhitelist none)) :=
  refresh_atomic_snapshot none egGetAPI egFetchFail ⟨[("p1", egAPI.toMetadata)]⟩

/-- Claim C8: a provider whose `openapi.json` fetch fails produces exactly the
same snapshot entry, and the same single synthesized fallback tool, as the
same provider whose fetch succeeds with an empty paths map. -/
theorem fetch_failure_equals_empty_paths (api : PortalAPI)
    (f1 f2 : String → Option OpenAPIDoc) (id : String)
    (h1 : f1 (schemaUrl api.url) = none)
    (h2 : f2 (schemaUrl api.url) = some { paths := [] }) :
    processPortal f1 api = processPortal f2 api
    ∧ portalToolEntries id (processPortal f1 api) =
        [fallbackEntry id api.toMetadata]
    ∧ portalToolEntries id (processPortal f2 api) =
        [fallbackEntry id api.toMetadata] := by
  have e1 : processPortal f1 api = api.toMetadata := by
    simp [processPortal, PortalAPI.toMetadata, h1]
  have e2 : processPortal f2 api = api.toMetadata := by
    simp [processPortal, PortalAPI.toMetadata, h2, normalizeTools]
  refine ⟨e1.trans e2.symm, ?_, ?_⟩ <;>
    simp [e1, e2, portalToolEntries, portalHasTools, PortalAPI.toMetadata]

/-- Witness for C8 at the concrete provider `egAPI`: a failing fetcher and an
empty-document fetcher yield identical registry entries and tool lists. -/
theorem fetch_failure_equals_empty_paths_witness :
    processPortal egFetchFail egAPI = processPortal egFetchEmpty egAPI
    ∧ portalToolEntries "p1" (processPortal egFetchFail egAPI) =
        [fallbackEntry "p1" egAPI.toMetadata]
    ∧ portalToolEntries "p1" (processPortal egFetchEmpty egAPI) =
        [fallbackEntry "p1" egAPI.toMetadata] :=
  fetch_failure_equals_empty_paths egAPI egFetchFail egFetchEmpty "p1" rfl rfl

theorem strContainsB_of_infix {s pat : String} (h : pat.data <:+: s.data) :
    strContainsB s pat = true :=
  decide_eq_true h

theorem infix_append_right {l : List Char} {a b : String}
    (h : l <:+: b.data) : l <:+: (a ++ b).data := by
  rw [String.data_append]
  exact h.trans (List.suffix_append a.data b.data).isInfix

/-- The wallet address occurs in the SOL funding template. -/
theorem addr_in_solFundingMessage (w : String) :
    strContainsB (solFundingMessage w) w = true := by
  apply strContainsB_of_infix
  refine ⟨("❌ Insufficient SOL for gas fees\n\n" ++ "Send SOL to: ").data,
    ("\n" ++ "After funding, retry this request.").data, ?_⟩
  simp [solFundingMessage, String.data_append]

/-- The retry instruction occurs in the SOL funding template. -/
theorem retry_in_solFundingMessage (w : String) :
    strContainsB (solFundingMessage w) "After funding, retry this request." = true := by
  apply strContainsB_of_infix
  refine ⟨("❌ Insufficient SOL for gas fees\n\n" ++ "Send SOL to: " ++ w ++ "\n").data,
    [], ?_⟩
  simp [solFundingMessage, String.data_append]

/-- The wallet address occurs in the USDC funding template. -/
theorem addr_in_usdcFundingMessage (w : String) :
    strContainsB (usdcFundingMessage w) w = true := by
  apply strContainsB_of_infix
  refine ⟨("❌ Insufficient USDC balance\n\n" ++ "Send USDC to: ").data,
    ("\n" ++ "After funding, retry this request.").data, ?_⟩
  simp [usdcFundingMessage, String.data_append]

/-- The retry instruction occurs in the USDC funding template. -/
theorem retry_in_usdcFundingMessage (w : String) :
    strContainsB (usdcFundingMessage w) "After funding, retry this request." = true := by
  apply strContainsB_of_infix
  refine ⟨("❌ Insufficient USDC balance\n\n" ++ "Send USDC to: " ++ w ++ "\n").data,
    [], ?_⟩
  simp [usdcFundingMessage, String.data_append]

/-- Counterexample to claim C5 as stated: for the collaborator error text
`Insufficient SOL` (which does contain `Insufficient SOL`), the rewritten
error still contains the raw underlying error text, because that text is a
substring of the fixed template. -/
theorem dispatch_error_raw_text_counterexample :
    rewriteDispatchError "WALLETADDR" "Insufficient SOL" =
      solFundingMessage "WALLETADDR"
    ∧ strContainsB (rewriteDispatchError "WALLETADDR" "Insufficient SOL")
        "Insufficient SOL" = true := by
  decide

/-- Claim C5 (amended): an `Insufficient SOL` collaborator error is rewritten
to the fixed SOL funding template — a message depending only on the wallet
address, containing the address and the retry instruction, so the raw error
text is discarded and can only reappear when it happens to be a substring of
the template itself; insufficient-USDC errors are rewritten likewise; every
other error is wrapped as `Portal call failed` preserving the original
text. -/
theorem dispatch_error_classification (walletAddress errorMsg : String) :
    (strContainsB errorMsg "Insufficient SOL" = true →
      rewriteDispatchError walletAddress errorMsg = solFundingMessage walletAddress
      ∧ strContainsB (solFundingMessage walletAddress) walletAddress = true
      ∧ strContainsB (solFundingMessage walletAddress)
          "After funding, retry this request." = true
      ∧ (∀ other : String, strContainsB other "Insufficient SOL" = true →
          rewriteDispatchError walletAddress other =
            rewriteDispatchError walletAddress errorMsg))
    ∧ (strContainsB errorMsg "Insufficient SOL" = false →
        (strContainsB errorMsg "Insufficient USDC" = true ∨
          strContainsB errorMsg "InsufficientUsdcBalance" = true) →
        rewriteDispatchError walletAddress errorMsg = usdcFundingMessage walletAddress
        ∧ strContainsB (usdcFundingMessage walletAddress) walletAddress = true
        ∧ strContainsB (usdcFundingMessage walletAddress)
            "After funding, retry this request." = true)
    ∧ (strContainsB errorMsg "Insufficient SOL" = false →
        strContainsB errorMsg "Insufficient USDC" = false →
        strContainsB errorMsg "InsufficientUsdcBalance" = false →
        rewriteDispatchError walletAddress errorMsg =
          "Portal call failed: " ++ errorMsg
        ∧ strContainsB (rewriteDispatchError walletAddress errorMsg) errorMsg
            = true) := by
  refine ⟨fun hsol => ⟨?_, addr_in_solFundingMessage _, retry_in_solFundingMessage _,
      fun other hother => ?_⟩,
    fun hsol husdc => ⟨?_, addr_in_usdcFundingMessage _, retry_in_usdcFundingMessage _⟩,
    fun hsol husdc1 husdc2 => ⟨?_, ?_⟩⟩
  · simp [rewriteDispatchError, hsol]
  · simp [rewriteDispatchError, hsol, hother]
  · rcases husdc with h | h <;> simp [rewriteDispatchError, hsol, h]
  · simp [rewriteDispatchError, hsol, husdc1, husdc2]
  · rw [rewriteDispatchError]
    simp only [hsol, husdc1, husdc2, Bool.false_eq_true, if_false, Bool.or_self]
    apply strContainsB_of_infix
    refine ⟨"Portal call failed: ".data, [], ?_⟩
    simp [String.data_append]

/-- Witness for C5 (amended) at the spec's example input
`Error("Insufficient SOL for fee")`. -/
theorem dispatch_error_classification_witness :
    rewriteDispatchError "WALLETADDR" "Insufficient SOL for fee" =
      solFundingMessage "WALLETADDR"
    ∧ strContainsB (solFundingMessage "WALLETADDR") "WALLETADDR" = true
    ∧ strContainsB (solFundingMessage "WALLETADDR")
        "After funding, retry this request." = true
    ∧ (∀ other : String, strContainsB other "Insufficient SOL" = true →
        rewriteDispatchError "WALLETADDR" other =
          rewriteDispatchError "WALLETADDR" "Insufficient SOL for fee") :=
  (dispatch_error_classification "WALLETADDR" "Insufficient SOL for fee").1 (by decide)

/-- Every violation message appears verbatim in the serialized error list. -/
theorem mem_serializeViolations {v : String} :
    ∀ {errs : List String}, v ∈ errs → v.data <:+: (serializeViolations errs).data
  | [], h => absurd h (List.not_mem_nil v)
  | [e], h => by
    have hv : v = e := by simpa using h
    subst hv
    exact List.infix_rfl
  | e :: e2 :: es, h => by
    rcases List.mem_cons.mp h with hv | hv
    · subst hv
      show v.data <:+: (v ++ ", " ++ serializeViolations (e2 :: es)).data
      rw [String.data_append, String.data_append]
      exact ((List.prefix_append v.data ", ".data).isInfix).trans
        (List.prefix_append _ _).isInfix
    · show v.data <:+: (e ++ ", " ++ serializeViolations (e2 :: es)).data
      rw [String.data_append]
      exact (mem_serializeViolations hv).trans
        (List.suffix_append _ _).isInfix

/-- Claim C7: when the resolved tool carries a parameter schema, `callTool`
validates the arguments before dispatch and, on failure, raises an
`Invalid parameters` error whose text lists every violation reported by the
`allErrors` validator; when the resolved descriptor carries no schema (a
falsy `tool?.parameters`), validation is skipped and dispatch proceeds. -/
theorem calltool_validation_behavior (validate : Schema → Args → List String)
    (callAPI : String → Args → Option String → Except String String)
    (walletAddress : String) (portals : List (String × PortalMetadata))
    (name : String) (args : Args) (portal : PortalMetadata) (tool : Option Tool)
    (hfind : findPortalAndToolByName portals name = some (portal, tool)) :
    (∀ t sch, tool = some t → t.parameters = some sch →
      (validate sch args = [] →
        callToolModel validate callAPI walletAddress portals name args
          = dispatchCall callAPI walletAddress portal (some t.name) args)
      ∧ (validate sch args ≠ [] →
        callToolModel validate callAPI walletAddress portals name args
          = Except.error
              ("Invalid parameters: " ++ serializeViolations (validate sch args))
        ∧ ∀ v ∈ validate sch args,
            strContainsB
              ("Invalid parameters: " ++ serializeViolations (validate sch args)) v
              = true))
    ∧ (tool.bind Tool.parameters = none →
        callToolModel validate callAPI walletAddress portals name args
          = dispatchCall callAPI walletAddress portal (tool.map Tool.name) args) := by
  constructor
  · rintro t sch rfl hsch
    constructor
    · intro hok
      simp [callToolModel, hfind, hsch, hok]
    · intro hfail
      refine ⟨by simp [callToolModel, hfind, hsch, List.isEmpty_iff, hfail], ?_⟩
      intro v hv
      exact strContainsB_of_infix
        (infix_append_right (mem_serializeViolations hv))
  · intro hnone
    cases tool with
    | none => simp [callToolModel, hfind]
    | some t =>
      have hp : t.parameters = none := by simpa using hnone
      simp [callToolModel, hfind, hp]

/-- Claim C9: resolving a tool-less provider's synthesized fallback name
yields the provider with no tool, so `callTool` performs no validation at
all — the dispatch outcome is the same for every validator and every argument
object, which is passed to the payment client unchecked with no operation
name. -/
theorem fallback_call_skips_validation
    (validate1 validate2 : Schema → Args → List String)
    (callAPI : String → Args → Option String → Except String String)
    (walletAddress : String) (portals : List (String × PortalMetadata))
    (name : String) (args : Args) (portal : PortalMetadata)
    (hfind : findPortalAndToolByName portals name = some (portal, none)) :
    callToolModel validate1 callAPI walletAddress portals name args
      = dispatchCall callAPI walletAddress portal none args
    ∧ callToolModel validate1 callAPI walletAddress portals name args
      = callToolModel validate2 callAPI walletAddress portals name args := by
  constructor <;> simp [callToolModel, hfind]

/-- Witness for C7: the always-rejecting validator stops a call to the
explicit tool `opx` with the serialized violation list, while the accepting
validator lets the same call dispatch. -/
theorem calltool_validation_behavior_witness :
    callToolModel egRejectAll egCallAPI "W" egSnapshotTools "opx" "badargs"
      = Except.error ("Invalid parameters: " ++
          serializeViolations (egRejectAll Schema.emptyObject "badargs"))
    ∧ callToolModel egAcceptAll egCallAPI "W" egSnapshotTools "opx" "goodargs"
      = dispatchCall egCallAPI "W" egMetaTools (some "opx") "goodargs" :=
  ⟨(((calltool_validation_behavior egRejectAll egCallAPI "W" egSnapshotTools "opx"
      "badargs" egMetaTools (some egTool) (by decide)).1 egTool Schema.emptyObject
      rfl rfl).2 (by decide)).1,
   ((calltool_validation_behavior egAcceptAll egCallAPI "W" egSnapshotTools "opx"
      "goodargs" egMetaTools (some egTool) (by decide)).1 egTool Schema.emptyObject
      rfl rfl).1 rfl⟩

/-- Witness for C9: invoking the synthesized fallback name of the tool-less
provider dispatches unchecked even under the always-rejecting validator, with
the same outcome as under the accepting one. -/
theorem fallback_call_skips_validation_witness :
    callToolModel egRejectAll egCallAPI "W" egSnapshotNoTools
        "portal_alpha_one_p1" "notanobject"
      = dispatchCall egCallAPI "W" egMetaNoTools none "notanobject"
    ∧ callToolModel egRejectAll egCallAPI "W" egSnapshotNoTools
        "portal_alpha_one_p1" "notanobject"
      = callToolModel egAcceptAll egCallAPI "W" egSnapshotNoTools
          "portal_alpha_one_p1" "notanobject" :=
  fallback_call_skips_validation egRejectAll egAcceptAll egCallAPI "W"
    egSnapshotNoTools "portal_alpha_one_p1" "notanobject" egMetaNoTools (by decide)

/-- `Map.set` membership, given that every entry already present under the key
carries the same value (true throughout the refresh loop, where the value is a
function of the key). -/
theorem mapSet_mem (m : List (String × PortalMetadata)) (k : String)
    (v : PortalMetadata) (hv : ∀ p ∈ m, p.1 = k → p.2 = v)
    (q : String × PortalMetadata) :
    q ∈ mapSet m k v ↔ (q ∈ m ∨ q = (k, v)) := by
  unfold mapSet
  by_cases hany : m.any (fun e => e.1 == k)
  · simp only [hany, if_true]
    have hrepl : ∀ p ∈ m, (if p.1 == k then (k, v) else p) = p := by
      intro p hp
      by_cases hpk : p.1 = k
      · have h2 := hv p hp hpk
        simp [hpk, h2, Prod.ext_iff]
      · simp [hpk]
    have hmap : m.map (fun e => if e.1 == k then (k, v) else e) = m := by
      conv_rhs => rw [← List.map_id m]
      exact List.map_congr_left hrepl
    rw [hmap]
    have hkv : (k, v) ∈ m := by
      rcases List.any_eq_true.mp hany with ⟨e, he, hek⟩
      have hek' : e.1 = k := by simpa using hek
      have := hv e he hek'
      have : e = (k, v) := Prod.ext hek' this
      exact this ▸ he
    constructor
    · exact Or.inl
    · rintro (h | rfl)
      · exact h
      · exact hkv
  · simp [hany]

/-- Membership in the accumulated whitelist fold: an entry is either inherited
from the accumulator or keyed by a whitelisted id whose `getAPI` succeeded,
with the processed metadata as value. -/
theorem buildFold_mem (g : String → Option PortalAPI)
    (f : String → Option OpenAPIDoc) :
    ∀ (wl : List String) (acc : List (String × PortalMetadata)),
      (∀ p ∈ acc, ∃ api, g p.1 = some api ∧ p.2 = processPortal f api) →
      ∀ q, q ∈ wl.foldl (buildStep g f) acc ↔
        (q ∈ acc ∨ (q.1 ∈ wl ∧ ∃ api, g q.1 = some api ∧ q.2 = processPortal f api))
  | [], acc, hacc, q => by simp
  | id :: wl, acc, hacc, q => by
    rw [List.foldl_cons]
    cases hg : g id with
    | none =>
      have hstep : buildStep g f acc id = acc := by simp [buildStep, hg]
      rw [hstep, buildFold_mem g f wl acc hacc q]
      constructor
      · rintro (h | ⟨h1, h2⟩)
        · exact Or.inl h
        · exact Or.inr ⟨List.mem_cons_of_mem _ h1, h2⟩
      · rintro (h | ⟨h1, api, hapi, hq⟩)
        · exact Or.inl h
        · rcases List.mem_cons.mp h1 with rfl | h1
          · rw [hg] at hapi; cases hapi
          · exact Or.inr ⟨h1, api, hapi, hq⟩
    | some api =>
      have hstep : buildStep g f acc id = mapSet acc id (processPortal f api) := by
        simp [buildStep, hg]
      have hv : ∀ p ∈ acc, p.1 = id → p.2 = processPortal f api := by
        intro p hp hpk
        rcases hacc p hp with ⟨api', hapi', hval⟩
        rw [hpk, hg] at hapi'
        cases hapi'
        exact hval
      have hacc' : ∀ p ∈ mapSet acc id (processPortal f api),
          ∃ api', g p.1 = some api' ∧ p.2 = processPortal f api' := by
        intro p hp
        rcases (mapSet_mem acc id (processPortal f api) hv p).mp hp with h | rfl
        · exact hacc p h
        · exact ⟨api, hg, rfl⟩
      rw [hstep, buildFold_mem g f wl _ hacc' q,
        mapSet_mem acc id (processPortal f api) hv q]
      constructor
      · rintro ((h | rfl) | ⟨h1, h2⟩)
        · exact Or.inl h
        · exact Or.inr ⟨List.mem_cons_self id wl, api, hg, rfl⟩
        · exact Or.inr ⟨List.mem_cons_of_mem _ h1, h2⟩
      · rintro (h | ⟨h1, api', hapi', hq⟩)
        · exact Or.inl (Or.inl h)
        · rcases List.mem_cons.mp h1 with heq | h1
          · rw [heq, hg] at hapi'
            cases hapi'
            refine Or.inl (Or.inr ?_)
            cases q with
            | mk q1 q2 => simp only at heq hq; rw [heq, hq]
          · exact Or.inr ⟨h1, api', hapi', hq⟩

/-- Membership in the map built by a whole refresh. -/
theorem buildPortals_mem (g : String → Option PortalAPI)
    (f : String → Option OpenAPIDoc) (wl : List String)
    (q : String × PortalMetadata) :
    q ∈ buildPortals g f wl ↔
      (q.1 ∈ wl ∧ ∃ api, g q.1 = some api ∧ q.2 = processPortal f api) := by
  have := buildFold_mem g f wl [] (by simp) q
  simpa [buildPortals] using this

/-- A processed portal either has no `tools` field or a non-empty one. -/
theorem processPortal_tools (f : String → Option OpenAPIDoc) (api : PortalAPI) :
    (processPortal f api).tools = none ∨
      ∃ ts, (processPortal f api).tools = some ts ∧ ts ≠ [] := by
  cases hfetch : f (schemaUrl api.url) with
  | none =>
    left
    simp [processPortal, hfetch, PortalAPI.toMetadata]
  | some doc =>
    by_cases hlen : (normalizeTools api.description doc.paths).length > 0
    · right
      refine ⟨normalizeTools api.description doc.paths, ?_,
        List.ne_nil_of_length_pos hlen⟩
      simp [processPortal, hfetch, hlen, PortalAPI.toMetadata]
    · left
      simp [processPortal, hfetch, hlen, PortalAPI.toMetadata]

theorem portalToolEntries_of_tools_some {m : PortalMetadata} {ts : List Tool}
    (h : m.tools = some ts) (hne : ts ≠ []) (id : String) :
    portalToolEntries id m = ts.map explicitEntry := by
  have : 0 < ts.length := List.length_pos.mpr hne
  simp [portalToolEntries, portalHasTools, h, this]

theorem portalToolEntries_of_tools_none {m : PortalMetadata}
    (h : m.tools = none) (id : String) :
    portalToolEntries id m = [fallbackEntry id m] := by
  simp [portalToolEntries, portalHasTools, h]

/-- Claim C1: a successful refresh publishes a snapshot keyed by exactly the
whitelisted ids whose `getAPI` succeeded, and every published provider
contributes at least one entry to `getTools` — its explicit tools when the
schema yielded any, otherwise exactly the one synthesized fallback tool. -/
theorem refresh_snapshot_exact_and_nonempty_tools (env : Option String)
    (g : String → Option PortalAPI) (f : String → Option OpenAPIDoc)
    (st st2 : ManagerState)
    (h : refreshPortals env g f st = (st2, Except.ok ())) :
    (∀ id : String, (∃ m, (id, m) ∈ st2.portals) ↔
      (id ∈ parseWhitelist env ∧ (g id).isSome))
    ∧ (∀ id m, (id, m) ∈ st2.portals →
        1 ≤ (portalToolEntries id m).length
        ∧ (∀ e ∈ portalToolEntries id m, e ∈ getTools st2.portals)
        ∧ ((∃ ts, m.tools = some ts ∧ ts ≠ [] ∧
              portalToolEntries id m = ts.map explicitEntry)
           ∨ (m.tools = none ∧ portalToolEntries id m = [fallbackEntry id m]))) := by
  have hports : st2.portals = buildPortals g f (parseWhitelist env) := by
    unfold refreshPortals at h
    by_cases hlen : (parseWhitelist env).length = 0
    · simp [hlen] at h
    · simp only [hlen, if_false, Prod.mk.injEq] at h
      rw [← h.1]
  constructor
  · intro id
    constructor
    · rintro ⟨m, hm⟩
      rw [hports] at hm
      rcases (buildPortals_mem g f _ _).mp hm with ⟨hin, api, hapi, _⟩
      exact ⟨hin, by simp [hapi]⟩
    · rintro ⟨hin, hsome⟩
      rcases Option.isSome_iff_exists.mp hsome with ⟨api, hapi⟩
      refine ⟨processPortal f api, ?_⟩
      rw [hports]
      exact (buildPortals_mem g f _ _).mpr ⟨hin, api, hapi, rfl⟩
  · intro id m hm
    have hbranch : (∃ ts, m.tools = some ts ∧ ts ≠ [] ∧
          portalToolEntries id m = ts.map explicitEntry)
        ∨ (m.tools = none ∧ portalToolEntries id m = [fallbackEntry id m]) := by
      rw [hports] at hm
      rcases (buildPortals_mem g f _ _).mp hm with ⟨_, api, _, hval⟩
      rcases processPortal_tools f api with htools | ⟨ts, htools, hne⟩
      · rw [← hval] at htools
        exact Or.inr ⟨htools, portalToolEntries_of_tools_none htools id⟩
      · rw [← hval] at htools
        exact Or.inl ⟨ts, htools, hne, portalToolEntries_of_tools_some htools hne id⟩
    refine ⟨?_, ?_, hbranch⟩
    · rcases hbranch with ⟨ts, _, hne, hentries⟩ | ⟨_, hentries⟩
      · rw [hentries, List.length_map]
        exact List.length_pos.mpr hne
      · simp [hentries]
    · intro e he
      exact List.mem_flatMap.mpr ⟨(id, m), hm, he⟩

/-- Witness for C1: the whitelist `p1,p2` where only `p1` is reachable and its
schema fetch fails publishes exactly the one provider, with the single
synthesized fallback entry. -/
theorem refresh_snapshot_witness :
    (∀ id : String,
      (∃ m, (id, m) ∈ (⟨[("p1", egMetaNoTools)]⟩ : ManagerState).portals) ↔
      (id ∈ parseWhitelist (some "p1,p2") ∧ (egGetAPI id).isSome))
    ∧ (∀ id m, (id, m) ∈ (⟨[("p1", egMetaNoTools)]⟩ : ManagerState).portals →
        1 ≤ (portalToolEntries id m).length
        ∧ (∀ e ∈ portalToolEntries id m,
            e ∈ getTools (⟨[("p1", egMetaNoTools)]⟩ : ManagerState).portals)
        ∧ ((∃ ts, m.tools = some ts ∧ ts ≠ [] ∧
              portalToolEntries id m = ts.map explicitEntry)
           ∨ (m.tools = none ∧
              portalToolEntries id m = [fallbackEntry id m]))) :=
  refresh_snapshot_exact_and_nonempty_tools (some "p1,p2") egGetAPI egFetchFail
    ⟨[]⟩ ⟨[("p1", egMetaNoTools)]⟩ rfl

/-- Counterexample to claim C4 as stated: `refreshPortals` does not
deduplicate operation ids, so a provider whose document declares the same
`operationId` under two paths yields a snapshot whose `getTools` exposes the
name `x` twice. -/
theorem snapshot_names_counterexample :
    (getTools (refreshPortals (some "p1") egGetAPI dupFetch ⟨[]⟩).1.portals).map
        ToolEntry.name = ["x", "x"]
    ∧ ¬ ((getTools (refreshPortals (some "p1") egGetAPI dupFetch ⟨[]⟩).1.portals).map
        ToolEntry.name).Nodup := by
  constructor
  · rfl
  · intro h
    have := List.rel_of_pairwise_cons h (List.mem_singleton.mpr rfl)
    exact this rfl

/-- Claim C4 (amended): the names `getTools` exposes for a snapshot are
pairwise distinct provided each provider's own descriptor names are
duplicate-free and no name is shared between two providers of the snapshot;
the refresh performs no deduplication of its own, so snapshots violating
those assumptions (e.g. a repeated `operationId`) expose duplicate names. -/
theorem snapshot_names_nodup_of_disjoint
    (portals : List (String × PortalMetadata))
    (hper : ∀ p ∈ portals, ((portalToolEntries p.1 p.2).map ToolEntry.name).Nodup)
    (hpair : portals.Pairwise (fun p q =>
      List.Disjoint ((portalToolEntries p.1 p.2).map ToolEntry.name)
        ((portalToolEntries q.1 q.2).map ToolEntry.name))) :
    ((getTools portals).map ToolEntry.name).Nodup := by
  unfold getTools
  rw [List.map_flatMap, List.flatMap_def, List.nodup_flatten]
  constructor
  · intro l hl
    rcases List.mem_map.mp hl with ⟨p, hp, rfl⟩
    exact hper p hp
  · exact List.pairwise_map.mpr hpair

/-- Witness for C4 (amended): a two-provider snapshot with the explicit name
`opx` and the fallback name `portal_alpha_one_p2` has pairwise distinct
exposed names. -/
theorem snapshot_names_nodup_witness :
    ((getTools [("p1", egMetaTools), ("p2", egMetaNoTools)]).map
        ToolEntry.name).Nodup := by
  have h := snapshot_names_nodup_of_disjoint
    [("p1", egMetaTools), ("p2", egMetaNoTools)]
    (by
      intro p hp
      rcases List.mem_cons.mp hp with rfl | hp
      · decide
      · rcases List.mem_cons.mp hp with rfl | hp
        · decide
        · cases hp)
    (by
      refine List.Pairwise.cons ?_ (List.pairwise_singleton _ _)
      intro q hq
      rcases List.mem_singleton.mp hq with rfl
      have hd : ∀ n ∈ (portalToolEntries "p1" egMetaTools).map ToolEntry.name,
          n ∉ (portalToolEntries "p2" egMetaNoTools).map ToolEntry.name := by
        decide
      exact fun a ha hb => hd a ha hb)
  exact h

theorem snapshotNames_cons (p : String × PortalMetadata)
    (rest : List (String × PortalMetadata)) :
    snapshotNames (p :: rest) = portalNames p ++ snapshotNames rest := by
  simp [snapshotNames, portalNames, getTools]

/-- A snapshot member's own name multiplicities bound the snapshot's. -/
theorem count_portalNames_le (n : String) :
    ∀ (portals : List (String × PortalMetadata)) (p : String × PortalMetadata),
      p ∈ portals → (portalNames p).count n ≤ (snapshotNames portals).count n
  | [], p, h => absurd h (List.not_mem_nil p)
  | q :: rest, p, h => by
    rw [snapshotNames_cons, List.count_append]
    rcases List.mem_cons.mp h with rfl | h
    · exact Nat.le_add_right _ _
    · have := count_portalNames_le n rest p h
      omega

/-- `Array.prototype.find`-style lookup returns the unique tool bearing a name
that occurs at most once in the list. -/
theorem find?_unique_name :
    ∀ (ts : List Tool) (t : Tool) (n : String), t ∈ ts → t.name = n →
      (ts.map Tool.name).count n ≤ 1 →
      ts.find? (fun x => x.name == n) = some t
  | [], t, _, h, _, _ => absurd h (List.not_mem_nil t)
  | h :: hs, t, n, hmem, hname, hcount => by
    by_cases hh : h.name = n
    · have ht : t = h := by
        rcases List.mem_cons.mp hmem with rfl | hmem'
        · rfl
        · exfalso
          have h1 : n ∈ hs.map Tool.name := List.mem_map.mpr ⟨t, hmem', hname⟩
          have h2 : 0 < (hs.map Tool.name).count n := List.count_pos_iff.mpr h1
          rw [List.map_cons, List.count_cons] at hcount
          simp [hh] at hcount
          omega
      subst ht
      exact List.find?_cons_of_pos _ (by simp [hh])
    · have ht : t ∈ hs := by
        rcases List.mem_cons.mp hmem with rfl | hmem'
        · exact absurd hname hh
        · exact hmem'
      have hcount' : (hs.map Tool.name).count n ≤ 1 := by
        rw [List.map_cons, List.count_cons] at hcount
        omega
      rw [List.find?_cons_of_neg _ (by simp [hh])]
      exact find?_unique_name hs t n ht hname hcount'

/-- A matching head in the resolution scan exposes the resolved name. -/
theorem mem_portalNames_of_head_match (p : String × PortalMetadata) (n : String)
    (h : (portalHasTools p.2 = true ∧
        (∃ t, (p.2.tools.getD []).find? (fun x => x.name == n) = some t))
      ∨ (portalHasTools p.2 = false ∧ generateToolName p.2.title p.1 = n)) :
    n ∈ portalNames p := by
  rcases h with ⟨htools, t, hfind⟩ | ⟨htools, hgen⟩
  · have hmem := List.mem_of_find?_eq_some hfind
    have hname : t.name = n := by
      have := List.find?_some hfind
      simpa using this
    refine List.mem_map.mpr ⟨explicitEntry t, ?_, hname⟩
    simp only [portalToolEntries, htools, if_true]
    exact List.mem_map.mpr ⟨t, hmem, rfl⟩
  · refine List.mem_map.mpr ⟨fallbackEntry p.1 p.2, ?_, hgen⟩
    simp [portalToolEntries, htools]

/-- Claim C2 (amended): for every descriptor a snapshot exposes, resolving its
name returns that descriptor's own provider (and, for explicit descriptors,
that same tool) provided the name occurs exactly once among the snapshot's
exposed names; without that uniqueness the first matching provider in map
order wins instead. -/
theorem resolve_roundtrip_of_unique_name :
    ∀ (portals : List (String × PortalMetadata)) (id : String)
      (m : PortalMetadata), (id, m) ∈ portals →
      ∀ n : String, (snapshotNames portals).count n = 1 →
      (∀ ts t, m.tools = some ts → t ∈ ts → t.name = n →
        findPortalAndToolByName portals n = some (m, some t))
      ∧ (portalHasTools m = false → n = generateToolName m.title id →
        findPortalAndToolByName portals n = some (m, none))
  | [], id, m, hmem, _, _ => absurd hmem (List.not_mem_nil (id, m))
  | p :: rest, id, m, hmem, n, hcount => by
    rcases List.mem_cons.mp hmem with heq | hmem'
    · constructor
      · intro ts t htools ht hname
        have hgetD : m.tools.getD [] = ts := by rw [htools]; rfl
        have hhas : portalHasTools m = true := by
          simp only [portalHasTools, hgetD, decide_eq_true_eq]
          exact List.length_pos.mpr (List.ne_nil_of_mem ht)
        have hle : (ts.map Tool.name).count n ≤ 1 := by
          have hsub := count_portalNames_le n (p :: rest) p (List.mem_cons_self p rest)
          rw [hcount] at hsub
          have hnames : portalNames p = ts.map Tool.name := by
            rw [← heq]
            simp only [portalNames, portalToolEntries, hhas, if_true, hgetD,
              List.map_map]
            rfl
          rw [hnames] at hsub
          exact hsub
        rw [← heq]
        show findPortalAndToolByName ((id, m) :: rest) n = some (m, some t)
        unfold findPortalAndToolByName
        simp only [hhas, if_true, hgetD,
          find?_unique_name ts t n ht hname hle]
      · intro hhas hgen
        rw [← heq]
        show findPortalAndToolByName ((id, m) :: rest) n = some (m, none)
        unfold findPortalAndToolByName
        simp [hhas, hgen]
    · have hrest_pos : ∀ hyp : n ∈ portalNames (id, m),
          0 < (snapshotNames rest).count n := by
        intro hyp
        have := count_portalNames_le n rest (id, m) hmem'
        have h1 : 0 < (portalNames (id, m)).count n := List.count_pos_iff.mpr hyp
        omega
      constructor
      · intro ts t htools ht hname
        have hgetD : m.tools.getD [] = ts := by rw [htools]; rfl
        have hhas : portalHasTools m = true := by
          simp only [portalHasTools, hgetD, decide_eq_true_eq]
          exact List.length_pos.mpr (List.ne_nil_of_mem ht)
        have hexposed : n ∈ portalNames (id, m) := by
          refine List.mem_map.mpr ⟨explicitEntry t, ?_, hname⟩
          simp only [portalToolEntries, hhas, if_true, hgetD]
          exact List.mem_map.mpr ⟨t, ht, rfl⟩
        have hpos := hrest_pos hexposed
        have hsplit := snapshotNames_cons p rest
        have hheadzero : (portalNames p).count n = 0 := by
          rw [hsplit, List.count_append] at hcount
          omega
        have hnohead : n ∈ portalNames p → False := by
          intro hmemhead
          have := List.count_pos_iff.mpr hmemhead
          omega
        have hcount' : (snapshotNames rest).count n = 1 := by
          rw [hsplit, List.count_append] at hcount
          omega
        have hrec := (resolve_roundtrip_of_unique_name rest id m hmem' n hcount').1
          ts t htools ht hname
        unfold findPortalAndToolByName
        by_cases hp : portalHasTools p.2
        · cases hfind : (p.2.tools.getD []).find? (fun x => x.name == n) with
          | none => simp only [hp, if_true, hfind]; exact hrec
          | some t' =>
            exact absurd
              (mem_portalNames_of_head_match p n (Or.inl ⟨hp, t', hfind⟩))
              hnohead
        · by_cases hgenp : generateToolName p.2.title p.1 = n
          · exact absurd
              (mem_portalNames_of_head_match p n
                (Or.inr ⟨Bool.eq_false_iff.mpr hp ▸ rfl, hgenp⟩))
              hnohead
          · simp only [Bool.not_eq_true] at hp
            simp only [hp, Bool.false_eq_true, if_false, beq_iff_eq, hgenp]
            exact hrec
      · intro hhas hgen
        have hexposed : n ∈ portalNames (id, m) := by
          refine List.mem_map.mpr ⟨fallbackEntry id m, ?_, hgen.symm⟩
          simp [portalToolEntries, hhas]
        have hpos := hrest_pos hexposed
        have hsplit := snapshotNames_cons p rest
        have hheadzero : (portalNames p).count n = 0 := by
          rw [hsplit, List.count_append] at hcount
          omega
        have hnohead : n ∈ portalNames p → False := by
          intro hmemhead
          have := List.count_pos_iff.mpr hmemhead
          omega
        have hcount' : (snapshotNames rest).count n = 1 := by
          rw [hsplit, List.count_append] at hcount
          omega
        have hrec := (resolve_roundtrip_of_unique_name rest id m hmem' n hcount').2
          hhas hgen
        unfold findPortalAndToolByName
        by_cases hp : portalHasTools p.2
        · cases hfind : (p.2.tools.getD []).find? (fun x => x.name == n) with
          | none => simp only [hp, if_true, hfind]; exact hrec
          | some t' =>
            exact absurd
              (mem_portalNames_of_head_match p n (Or.inl ⟨hp, t', hfind⟩))
              hnohead
        · by_cases hgenp : generateToolName p.2.title p.1 = n
          · exact absurd
              (mem_portalNames_of_head_match p n
                (Or.inr ⟨Bool.eq_false_iff.mpr hp ▸ rfl, hgenp⟩))
              hnohead
          · simp only [Bool.not_eq_true] at hp
            simp only [hp, Bool.false_eq_true, if_false, beq_iff_eq, hgenp]
            exact hrec

/-- Counterexample to claim C2 as stated: in a refreshed snapshot where two
providers both expose the explicit tool name `x`, the second provider's
descriptor is present in `getTools`, yet resolving its exact name returns the
first provider's (different) provider and tool — first match wins, so the
round-trip fails without a uniqueness assumption. -/
theorem resolve_roundtrip_counterexample :
    cexPortals = [("p1", cexMeta1), ("p2", cexMeta2)]
    ∧ explicitEntry cexTool2 ∈ portalToolEntries "p2" cexMeta2
    ∧ explicitEntry cexTool2 ∈ getTools cexPortals
    ∧ findPortalAndToolByName cexPortals "x" = some (cexMeta1, some cexTool1)
    ∧ cexMeta1 ≠ cexMeta2 ∧ cexTool1 ≠ cexTool2
    ∧ (explicitEntry cexTool2).name = "x" := by
  refine ⟨by decide, by decide, by decide, by decide, by decide, by decide, by decide⟩

/-- Witness for C2 (amended): with unique exposed names, both an explicit
descriptor and a synthesized fallback descriptor resolve back to their own
provider and tool. -/
theorem resolve_roundtrip_witness :
    findPortalAndToolByName egSnapshotTools "opx" = some (egMetaTools, some egTool)
    ∧ findPortalAndToolByName egSnapshotNoTools "portal_alpha_one_p1"
        = some (egMetaNoTools, none) :=
  ⟨(resolve_roundtrip_of_unique_name egSnapshotTools "p1" egMetaTools (by decide)
      "opx" (by decide)).1 [egTool] egTool rfl (by decide) rfl,
   (resolve_roundtrip_of_unique_name egSnapshotNoTools "p1" egMetaNoTools
      (by decide) "portal_alpha_one_p1" (by decide)).2 (by decide) (by decide)⟩

theorem splitOnP_ne_nil (p : Char → Bool) : ∀ l : List Char, l.splitOnP p ≠ []
  | [] => by simp [List.splitOnP_nil]
  | x :: xs => by
    rw [List.splitOnP_cons]
    by_cases hx : p x = true
    · simp [hx]
    · simp only [hx, if_false]
      cases hS : xs.splitOnP p with
      | nil => exact absurd hS (splitOnP_ne_nil p xs)
      | cons h t => simp [List.modifyHead]

theorem slugGroups_nil : slugGroups [] = [] := by
  simp [slugGroups, List.splitOnP_nil]

theorem slugGroups_cons_of_nonslug {c : Char} (hc : isSlugChar c = false)
    (cs : List Char) : slugGroups (c :: cs) = slugGroups cs := by
  simp [slugGroups, List.splitOnP_cons, hc]

theorem slugGroups_cons_of_slug : ∀ (cs : List Char) (c : Char),
    isSlugChar c = true →
    slugGroups (c :: cs) =
      (c :: cs.takeWhile isSlugChar) :: slugGroups (cs.dropWhile isSlugChar)
  | [], c, hc => by
    simp [slugGroups, List.splitOnP_cons, List.splitOnP_nil, hc, List.modifyHead]
  | d :: ds, c, hc => by
    by_cases hd : isSlugChar d = true
    · rcases List.exists_cons_of_ne_nil
        (splitOnP_ne_nil (fun c => !isSlugChar c) ds) with ⟨h, t, hS⟩
      have ihl : slugGroups (d :: ds) =
          (d :: h) :: t.filter (fun g => !g.isEmpty) := by
        rw [slugGroups, List.splitOnP_cons]
        simp only [hd, Bool.not_true, Bool.false_eq_true, if_false]
        rw [hS]
        simp [List.modifyHead]
      have ih := slugGroups_cons_of_slug ds d hd
      rw [ihl] at ih
      have hh : h = ds.takeWhile isSlugChar := by
        have := (List.cons.injEq _ _ _ _).mp ih
        have h1 := this.1
        exact (List.cons.injEq _ _ _ _).mp h1 |>.2
      have ht : t.filter (fun g => !g.isEmpty) =
          slugGroups (ds.dropWhile isSlugChar) := by
        have := (List.cons.injEq _ _ _ _).mp ih
        exact this.2
      rw [slugGroups, List.splitOnP_cons]
      simp only [hc, Bool.not_true, Bool.false_eq_true, if_false]
      rw [List.splitOnP_cons]
      simp only [hd, Bool.not_true, Bool.false_eq_true, if_false]
      rw [hS]
      simp only [List.modifyHead, List.takeWhile_cons, List.dropWhile_cons, hd,
        if_true]
      simp only [List.filter, List.isEmpty_cons, Bool.not_false]
      rw [hh, ht]
    · have hd' : isSlugChar d = false := by
        cases hded : isSlugChar d
        · rfl
        · exact absurd hded hd
      rw [slugGroups, List.splitOnP_cons]
      simp only [hc, Bool.not_true, Bool.false_eq_true, if_false]
      rw [List.splitOnP_cons]
      simp only [hd', Bool.not_false, if_true]
      simp only [List.modifyHead, List.takeWhile_cons, List.dropWhile_cons, hd',
        Bool.false_eq_true, if_false]
      simp only [List.filter, List.isEmpty_cons, Bool.not_false,
        List.isEmpty_nil, Bool.not_true]
      rw [← slugGroups]
      rw [slugGroups_cons_of_nonslug hd' ds]

/-- A slug group is never empty and consists of alphanumeric characters. -/
theorem mem_splitOnP_all_slug :
    ∀ (l : List Char) (g : List Char),
      g ∈ l.splitOnP (fun c => !isSlugChar c) → ∀ ch ∈ g, isSlugChar ch = true
  | [], g, hg, ch, hch => by
    rw [List.splitOnP_nil] at hg
    rcases List.mem_singleton.mp hg with rfl
    exact absurd hch (List.not_mem_nil ch)
  | x :: xs, g, hg, ch, hch => by
    rw [List.splitOnP_cons] at hg
    by_cases hx : isSlugChar x = true
    · simp only [hx, Bool.not_true, Bool.false_eq_true, if_false] at hg
      rcases List.exists_cons_of_ne_nil
        (splitOnP_ne_nil (fun c => !isSlugChar c) xs) with ⟨h, t, hS⟩
      rw [hS] at hg
      simp only [List.modifyHead] at hg
      rcases List.mem_cons.mp hg with rfl | hg
      · rcases List.mem_cons.mp hch with rfl | hch
        · exact hx
        · exact mem_splitOnP_all_slug xs h (hS ▸ List.mem_cons_self h t) ch hch
      · exact mem_splitOnP_all_slug xs g (hS ▸ List.mem_cons_of_mem h hg) ch hch
    · simp only [hx] at hg
      simp only [Bool.not_eq_true] at hx
      simp only [hx, Bool.not_false, if_true] at hg
      rcases List.mem_cons.mp hg with rfl | hg
      · exact absurd hch (List.not_mem_nil ch)
      · exact mem_splitOnP_all_slug xs g hg ch hch

theorem mem_slugGroups (l : List Char) (g : List Char) (hg : g ∈ slugGroups l) :
    g ≠ [] ∧ ∀ ch ∈ g, isSlugChar ch = true := by
  rcases List.mem_filter.mp hg with ⟨hmem, hne⟩
  refine ⟨?_, mem_splitOnP_all_slug l g hmem⟩
  intro hnil
  rw [hnil] at hne
  simp at hne

theorem slugGroups_eq_nil_iff : ∀ l : List Char,
    slugGroups l = [] ↔ ∀ c ∈ l, isSlugChar c = false
  | [] => by simp [slugGroups_nil]
  | c :: cs => by
    by_cases hc : isSlugChar c = true
    · rw [slugGroups_cons_of_slug cs c hc]
      simp only [reduceCtorEq, false_iff, not_forall]
      exact ⟨c, List.mem_cons_self c cs, by simp [hc]⟩
    · simp only [Bool.not_eq_true] at hc
      rw [slugGroups_cons_of_nonslug hc cs, slugGroups_eq_nil_iff cs]
      constructor
      · intro h d hd
        rcases List.mem_cons.mp hd with rfl | hd
        · exact hc
        · exact h d hd
      · intro h d hd
        exact h d (List.mem_cons_of_mem c hd)

theorem trailUS_cons_cons (c d : Char) (ds : List Char) :
    trailUS (c :: d :: ds) = trailUS (d :: ds) := rfl

theorem trailUS_of_all_nonslug : ∀ cs : List Char, cs ≠ [] →
    (∀ c ∈ cs, isSlugChar c = false) → trailUS cs = ['_']
  | [], h, _ => absurd rfl h
  | [c], _, hall => by
    simp [trailUS, hall c (List.mem_singleton.mpr rfl)]
  | c :: d :: ds, _, hall => by
    rw [trailUS_cons_cons]
    exact trailUS_of_all_nonslug (d :: ds) (by simp)
      (fun x hx => hall x (List.mem_cons_of_mem c hx))

theorem trailUS_values : ∀ cs : List Char, trailUS cs = [] ∨ trailUS cs = ['_']
  | [] => Or.inl rfl
  | [c] => by
    by_cases hc : isSlugChar c = true <;> simp [trailUS, hc]
  | c :: d :: ds => by
    rw [trailUS_cons_cons]
    exact trailUS_values (d :: ds)

theorem join_cons_cons (c : Char) (h : List Char) (t : List (List Char)) :
    joinUnderscore ((c :: h) :: t) = c :: joinUnderscore (h :: t) := by
  cases t with
  | nil => rfl
  | cons u us => simp [joinUnderscore, List.cons_append]

/-- The two modes of `collapseAux` in terms of the spec's run decomposition:
mode `true` (inside a run) yields the joined groups plus a trailing
underscore when the input ends in a non-alphanumeric run; mode `false` adds
the leading underscore when the input starts with one. -/
theorem collapse_spec : ∀ l : List Char,
    collapseAux l true =
      joinUnderscore (slugGroups l) ++
        (if slugGroups l = [] then [] else trailUS l)
    ∧ collapseAux l false =
      leadUS l ++ (joinUnderscore (slugGroups l) ++
        (if slugGroups l = [] then [] else trailUS l))
  | [] => by
    refine ⟨?_, ?_⟩ <;> simp [collapseAux, slugGroups_nil, joinUnderscore, leadUS]
  | c :: cs => by
    obtain ⟨ihA, ihB⟩ := collapse_spec cs
    by_cases hc : isSlugChar c = true
    · have hlead : leadUS (c :: cs) = [] := by simp [leadUS, hc]
      have hLHS1 : collapseAux (c :: cs) true = c :: collapseAux cs false := by
        simp [collapseAux, hc]
      have hLHS2 : collapseAux (c :: cs) false = c :: collapseAux cs false := by
        simp [collapseAux, hc]
      have key : c :: collapseAux cs false =
          joinUnderscore (slugGroups (c :: cs)) ++
            (if slugGroups (c :: cs) = [] then [] else trailUS (c :: cs)) := by
        cases cs with
        | nil =>
          rw [slugGroups_cons_of_slug [] c hc]
          simp [collapseAux, joinUnderscore, trailUS, hc, slugGroups_nil]
        | cons d ds =>
          rw [ihB]
          by_cases hd : isSlugChar d = true
          · have hsgcd : slugGroups (c :: d :: ds) =
                (c :: d :: ds.takeWhile isSlugChar) ::
                  slugGroups (ds.dropWhile isSlugChar) := by
              rw [slugGroups_cons_of_slug (d :: ds) c hc]
              simp [List.takeWhile_cons, List.dropWhile_cons, hd]
            have hsgd : slugGroups (d :: ds) =
                (d :: ds.takeWhile isSlugChar) ::
                  slugGroups (ds.dropWhile isSlugChar) :=
              slugGroups_cons_of_slug ds d hd
            have hleadd : leadUS (d :: ds) = [] := by simp [leadUS, hd]
            rw [hsgcd, hsgd, hleadd, join_cons_cons, trailUS_cons_cons,
              if_neg (by simp : ¬((c :: d :: ds.takeWhile isSlugChar) ::
                slugGroups (ds.dropWhile isSlugChar) = [])),
              if_neg (by simp : ¬((d :: ds.takeWhile isSlugChar) ::
                slugGroups (ds.dropWhile isSlugChar) = []))]
            rw [join_cons_cons, join_cons_cons]
            simp [List.cons_append]
          · have hd' : isSlugChar d = false := by
              revert hd; cases isSlugChar d <;> simp
            have hsgcd : slugGroups (c :: d :: ds) =
                [c] :: slugGroups (d :: ds) := by
              rw [slugGroups_cons_of_slug (d :: ds) c hc]
              simp [List.takeWhile_cons, List.dropWhile_cons, hd',
                slugGroups_cons_of_nonslug hd' ds]
            have hleadd : leadUS (d :: ds) = ['_'] := by simp [leadUS, hd']
            rw [hsgcd, hleadd, trailUS_cons_cons]
            by_cases hsg : slugGroups (d :: ds) = []
            · have hall : ∀ x ∈ d :: ds, isSlugChar x = false :=
                (slugGroups_eq_nil_iff (d :: ds)).mp hsg
              have htr : trailUS (d :: ds) = ['_'] :=
                trailUS_of_all_nonslug (d :: ds) (by simp) hall
              rw [hsg, htr]
              simp [joinUnderscore]
            · rcases List.exists_cons_of_ne_nil hsg with ⟨g, gs, hggs⟩
              rw [if_neg hsg,
                if_neg (by simp : ¬([c] :: slugGroups (d :: ds) = [])),
                hggs]
              simp [joinUnderscore, List.cons_append]
      refine ⟨hLHS1.trans key, ?_⟩
      rw [hLHS2, key, hlead]
      simp
    · have hc' : isSlugChar c = false := by
        revert hc; cases isSlugChar c <;> simp
      have hlead : leadUS (c :: cs) = ['_'] := by simp [leadUS, hc']
      have hsg : slugGroups (c :: cs) = slugGroups cs :=
        slugGroups_cons_of_nonslug hc' cs
      have hLHS1 : collapseAux (c :: cs) true = collapseAux cs true := by
        simp [collapseAux, hc']
      have hLHS2 : collapseAux (c :: cs) false = '_' :: collapseAux cs true := by
        simp [collapseAux, hc']
      cases cs with
      | nil =>
        constructor
        · rw [hLHS1, hsg]
          simp [collapseAux, slugGroups_nil, joinUnderscore]
        · rw [hLHS2, hsg, hlead]
          simp [collapseAux, slugGroups_nil, joinUnderscore]
      | cons d ds =>
        have htr := trailUS_cons_cons c d ds
        constructor
        · rw [hLHS1, hsg, htr, ihA]
        · rw [hLHS2, hsg, hlead, htr, ihA]
          simp

theorem mem_of_getLast?_eq_some {l : List Char} {y : Char}
    (h : l.getLast? = some y) : y ∈ l := by
  rcases List.mem_getLast?_eq_getLast (Option.mem_def.mpr h) with ⟨hne, rfl⟩
  exact List.getLast_mem hne

theorem join_ne_nil (g : List Char) (gs : List (List Char)) (hg : g ≠ []) :
    joinUnderscore (g :: gs) ≠ [] := by
  cases gs with
  | nil => exact hg
  | cons u us => simp [joinUnderscore, hg]

/-- The last character of a joined non-empty group list is alphanumeric. -/
theorem join_getLast_slug :
    ∀ (gs : List (List Char)) (g : List Char),
      (∀ h ∈ g :: gs, h ≠ [] ∧ ∀ ch ∈ h, isSlugChar ch = true) →
      ∀ y, (joinUnderscore (g :: gs)).getLast? = some y → isSlugChar y = true
  | [], g, hall, y, hy => by
    have hmem : y ∈ g := mem_of_getLast?_eq_some hy
    exact (hall g (List.mem_cons_self g [])).2 y hmem
  | u :: us, g, hall, y, hy => by
    have hune : u ≠ [] := (hall u (List.mem_cons_of_mem g (List.mem_cons_self u us))).1
    have hjne : joinUnderscore (u :: us) ≠ [] := join_ne_nil u us hune
    rcases List.exists_cons_of_ne_nil hjne with ⟨j, js, hjj⟩
    have hy' : (joinUnderscore (u :: us)).getLast? = some y := by
      have hsplit : joinUnderscore (g :: u :: us) =
          g ++ '_' :: joinUnderscore (u :: us) := by
        simp [joinUnderscore]
      rw [hsplit, List.getLast?_append] at hy
      rw [hjj] at hy ⊢
      rw [List.getLast?_cons_cons] at hy
      cases hlast : (j :: js).getLast? with
      | none => simp [List.getLast?_eq_none_iff] at hlast
      | some z =>
        rw [hlast] at hy
        simpa using hy
    exact join_getLast_slug us u
      (fun h hh => hall h (List.mem_cons_of_mem g hh)) y hy'

theorem leadUS_values : ∀ l : List Char, leadUS l = [] ∨ leadUS l = ['_']
  | [] => Or.inl rfl
  | c :: cs => by
    by_cases hc : isSlugChar c = true <;> simp [leadUS, hc]

theorem dropLeadUnderscore_cons_of_ne {x : Char} (hx : x ≠ '_') (l : List Char) :
    dropLeadUnderscore (x :: l) = x :: l := by
  unfold dropLeadUnderscore
  split
  · rename_i rest heq
    cases heq
    exact absurd rfl hx
  · rfl

theorem dropTrailUnderscore_append_underscore (l : List Char) :
    dropTrailUnderscore (l ++ ['_']) = l := by
  show (dropLeadUnderscore (l ++ ['_']).reverse).reverse = l
  rw [List.reverse_append]
  rw [show (['_'] : List Char).reverse ++ l.reverse = '_' :: l.reverse from rfl]
  rw [show dropLeadUnderscore ('_' :: l.reverse) = l.reverse from rfl]
  exact List.reverse_reverse l

theorem dropTrailUnderscore_of_getLast_ne {l : List Char}
    (h : ∀ y, l.getLast? = some y → y ≠ '_') : dropTrailUnderscore l = l := by
  cases hl : l.reverse with
  | nil =>
    have hnil : l = [] := List.reverse_eq_nil_iff.mp hl
    subst hnil
    rfl
  | cons y r =>
    have hy : l.getLast? = some y := by
      rw [← List.head?_reverse, hl]
      rfl
    have hys := h y hy
    show (dropLeadUnderscore l.reverse).reverse = l
    rw [hl, dropLeadUnderscore_cons_of_ne hys r, ← hl, List.reverse_reverse]

/-- The slug built by `generateToolName`'s two regex replaces equals the
spec's run decomposition joined with single underscores. -/
theorem slugify_spec (l : List Char) :
    dropTrailUnderscore (dropLeadUnderscore (collapseAux l false)) =
      joinUnderscore (slugGroups l) := by
  have hB := (collapse_spec l).2
  cases hsg : slugGroups l with
  | nil =>
    rw [hsg] at hB
    simp only [joinUnderscore, if_pos rfl, List.nil_append, List.append_nil] at hB
    rw [hB]
    cases l with
    | nil => rfl
    | cons c cs =>
      by_cases hc : isSlugChar c = true
      · exfalso
        rw [slugGroups_cons_of_slug cs c hc] at hsg
        exact absurd hsg (by simp)
      · have hc' : isSlugChar c = false := by
          revert hc; cases isSlugChar c <;> simp
        rw [show leadUS (c :: cs) = ['_'] from by simp [leadUS, hc']]
        rfl
  | cons g gs =>
    rw [hsg] at hB
    have hmem : ∀ h ∈ g :: gs, h ≠ [] ∧ ∀ ch ∈ h, isSlugChar ch = true :=
      fun h hh => mem_slugGroups l h (hsg ▸ hh)
    obtain ⟨hgne, hgslug⟩ := hmem g (List.mem_cons_self g gs)
    rcases List.exists_cons_of_ne_nil hgne with ⟨x, g2, rfl⟩
    have hjoin : joinUnderscore ((x :: g2) :: gs) =
        x :: joinUnderscore (g2 :: gs) := join_cons_cons x g2 gs
    have hxslug : isSlugChar x = true :=
      hgslug x (List.mem_cons_self x g2)
    have hxne : x ≠ '_' := by
      intro hxx
      rw [hxx] at hxslug
      exact absurd hxslug (by decide)
    have hlast : ∀ y, (joinUnderscore ((x :: g2) :: gs)).getLast? = some y →
        y ≠ '_' := by
      intro y hy hyy
      have := join_getLast_slug gs (x :: g2) hmem y hy
      rw [hyy] at this
      exact absurd this (by decide)
    rw [if_neg (by simp : ¬((x :: g2) :: gs = ([] : List (List Char))))] at hB
    rcases trailUS_values l with htr | htr <;> rw [htr] at hB
    · rw [List.append_nil] at hB
      rw [hB]
      rcases leadUS_values l with hld | hld <;> rw [hld]
      · rw [List.nil_append, hjoin, dropLeadUnderscore_cons_of_ne hxne, ← hjoin]
        exact dropTrailUnderscore_of_getLast_ne hlast
      · rw [show (['_'] : List Char) ++ joinUnderscore ((x :: g2) :: gs) =
          '_' :: joinUnderscore ((x :: g2) :: gs) from rfl]
        rw [show dropLeadUnderscore ('_' :: joinUnderscore ((x :: g2) :: gs)) =
          joinUnderscore ((x :: g2) :: gs) from rfl]
        exact dropTrailUnderscore_of_getLast_ne hlast
    · rw [hB]
      rcases leadUS_values l with hld | hld <;> rw [hld]
      · rw [List.nil_append, hjoin, List.cons_append,
          dropLeadUnderscore_cons_of_ne hxne, ← List.cons_append, ← hjoin]
        exact dropTrailUnderscore_append_underscore _
      · rw [show (['_'] : List Char) ++
            (joinUnderscore ((x :: g2) :: gs) ++ ['_']) =
          '_' :: (joinUnderscore ((x :: g2) :: gs) ++ ['_']) from rfl]
        rw [show dropLeadUnderscore
            ('_' :: (joinUnderscore ((x :: g2) :: gs) ++ ['_'])) =
          joinUnderscore ((x :: g2) :: gs) ++ ['_'] from rfl]
        exact dropTrailUnderscore_append_underscore _

theorem generateToolName_eq_spec (title id : String) :
    generateToolName title id = specGenerateToolName title id := by
  unfold generateToolName specGenerateToolName slugify
  rw [slugify_spec (lowerChars title)]

/-- Counterexample to the injectivity part of claim C3 as stated: two
providers with identical titles and distinct ids sharing their first four
characters generate the same tool name. -/
theorem generateToolName_injective_counterexample :
    generateToolName "Foo" "AAAA1" = generateToolName "Foo" "AAAA2"
    ∧ ("AAAA1" : String) ≠ "AAAA2" := by
  constructor
  · rfl
  · decide

/-- Claim C3 (amended): `generateToolName` is the deterministic function that
lower-cases the title, replaces each run of non-alphanumeric characters with
one underscore, strips a leading and trailing underscore (equivalently: joins
the maximal alphanumeric runs with single underscores), prefixes `portal_`
and suffixes the first 4 characters of the id; two providers with the same
title get distinct names exactly when those 4-character prefixes differ —
distinct ids alone do not suffice. -/
theorem generateToolName_spec_and_discriminating :
    (∀ title id, generateToolName title id = specGenerateToolName title id)
    ∧ (∀ title id1 id2, take4 id1 ≠ take4 id2 →
        generateToolName title id1 ≠ generateToolName title id2) := by
  constructor
  · exact generateToolName_eq_spec
  · intro title id1 id2 hne heq
    apply hne
    have hdata := congrArg String.data heq
    simp only [generateToolName, String.data_append] at hdata
    have h1 := List.append_cancel_left hdata
    exact mk_eq_mk_iff.mpr h1

/-- Witness for C3 (amended) at a concrete title and two ids with distinct
4-character prefixes. -/
theorem generateToolName_spec_witness :
    generateToolName "My Portal" "ABCDEFG" =
      specGenerateToolName "My Portal" "ABCDEFG"
    ∧ generateToolName "My Portal" "ABCDEFG" ≠
      generateToolName "My Portal" "WXYZ99" :=
  ⟨generateToolName_spec_and_discriminating.1 "My Portal" "ABCDEFG",
   generateToolName_spec_and_discriminating.2 "My Portal" "ABCDEFG" "WXYZ99"
     (by decide)⟩

end Portals
